import Mathlib

/-!
Shallow embedding of the NeonFlow canvas visualizer (VisualizerCanvas render
loop) and proofs about its per-frame pipeline: metric extraction, color
synthesis, particle-field simulation, and the mode-specific draw strategies.

Numeric conventions: the source's floating-point arithmetic is modelled over
the exact rationals (and over the reals where `Math.sin` is involved).
JavaScript division by zero (which yields NaN or Infinity, i.e. an undefined
level) is modelled by an `Option` result; the JavaScript `%` operator, which
truncates toward zero and hence keeps the sign of its left operand, is
modelled explicitly rather than by the mathematical remainder.
-/

namespace NeonFlow

/-! ### Metric Extractor (render, accumulation loop over the spectrum)

The render loop walks the frequency array once:
indices `i < 5` add `val` to `bassTotal`, `5 ≤ i < 20` add `val * 0.8`,
`20 ≤ i < 100` add `val` to `lowMidTotal`, and `100 ≤ i` add `val` to
`highTotal`.  A spectrum is modelled as a function `d : ℕ → ℕ` (byte values)
together with its length `n` (`bufferLength`). -/

/-- Contribution of bin `i` with byte value `v` to `bassTotal`. -/
def bassContrib (v : ℕ) (i : ℕ) : ℚ :=
  if i < 5 then (v : ℚ) else if i < 20 then (v : ℚ) * 0.8 else 0

/-- Contribution of bin `i` with byte value `v` to `lowMidTotal`. -/
def midContrib (v : ℕ) (i : ℕ) : ℚ :=
  if i < 20 then 0 else if i < 100 then (v : ℚ) else 0

/-- Contribution of bin `i` with byte value `v` to `highTotal`. -/
def highContrib (v : ℕ) (i : ℕ) : ℚ :=
  if i < 100 then 0 else (v : ℚ)

/-- `bassTotal` accumulated over the whole spectrum. -/
def bassTotal (d : ℕ → ℕ) (n : ℕ) : ℚ :=
  ∑ i ∈ Finset.range n, bassContrib (d i) i

/-- `lowMidTotal` accumulated over the whole spectrum. -/
def lowMidTotal (d : ℕ → ℕ) (n : ℕ) : ℚ :=
  ∑ i ∈ Finset.range n, midContrib (d i) i

/-- `highTotal` accumulated over the whole spectrum. -/
def highTotal (d : ℕ → ℕ) (n : ℕ) : ℚ :=
  ∑ i ∈ Finset.range n, highContrib (d i) i

/-- `bassAvg = bassTotal / 20`. -/
def bassAvg (d : ℕ → ℕ) (n : ℕ) : ℚ := bassTotal d n / 20

/-- `lowMidAvg = lowMidTotal / 80`. -/
def lowMidAvg (d : ℕ → ℕ) (n : ℕ) : ℚ := lowMidTotal d n / 80

/-- JavaScript floating point division: a zero divisor produces NaN or an
infinity, i.e. an undefined value, modelled as `none`. -/
def jsdiv (a b : ℚ) : Option ℚ := if b = 0 then none else some (a / b)

/-- `highAvg = highTotal / (bufferLength - 100)`; the divisor is the signed
integer `n - 100`, which is zero exactly when `n = 100`. -/
def highAvg (d : ℕ → ℕ) (n : ℕ) : Option ℚ :=
  jsdiv (highTotal d n) ((n : ℚ) - 100)

/-- `bassLevel = (bassAvg / 255)^2 * 2` (non-linear bass boost). -/
def bassLevel (d : ℕ → ℕ) (n : ℕ) : ℚ := (bassAvg d n / 255) ^ 2 * 2

/-- `midLevel = lowMidAvg / 255`. -/
def midLevel (d : ℕ → ℕ) (n : ℕ) : ℚ := lowMidAvg d n / 255

/-- `highLevel = highAvg / 255`; undefined (NaN) when `highAvg` is. -/
def highLevel (d : ℕ → ℕ) (n : ℕ) : Option ℚ :=
  (highAvg d n).map (fun a => a / 255)

theorem bassContrib_nonneg (v i : ℕ) : 0 ≤ bassContrib v i := by
  unfold bassContrib
  split
  · exact Nat.cast_nonneg v
  · split
    · positivity
    · exact le_refl 0

theorem bassTotal_nonneg (d : ℕ → ℕ) (n : ℕ) : 0 ≤ bassTotal d n :=
  Finset.sum_nonneg fun i _ => bassContrib_nonneg (d i) i

theorem bassLevel_nonneg (d : ℕ → ℕ) (n : ℕ) : 0 ≤ bassLevel d n := by
  unfold bassLevel
  positivity

theorem bassContrib_mono (i : ℕ) {v w : ℕ} (h : v ≤ w) :
    bassContrib v i ≤ bassContrib w i := by
  unfold bassContrib
  split
  · exact_mod_cast h
  · split
    · have : (v : ℚ) ≤ (w : ℚ) := by exact_mod_cast h
      nlinarith
    · exact le_refl 0

/-- On an all-zero spectrum the bass total vanishes. -/
theorem bassTotal_zero (n : ℕ) : bassTotal (fun _ => 0) n = 0 := by
  unfold bassTotal
  refine Finset.sum_eq_zero fun i _ => ?_
  unfold bassContrib
  split
  · simp
  · split
    · simp
    · rfl

/-- On an all-zero spectrum `bassLevel = 0`. -/
theorem bassLevel_zero (n : ℕ) : bassLevel (fun _ => 0) n = 0 := by
  unfold bassLevel bassAvg
  rw [bassTotal_zero]
  norm_num

/-- On an all-zero spectrum `midLevel = 0`. -/
theorem midLevel_zero (n : ℕ) : midLevel (fun _ => 0) n = 0 := by
  unfold midLevel lowMidAvg lowMidTotal
  have h : ∑ i ∈ Finset.range n, midContrib 0 i = 0 := by
    refine Finset.sum_eq_zero fun i _ => ?_
    unfold midContrib
    split
    · rfl
    · split
      · simp
      · rfl
  rw [h]
  norm_num

/-- On a full-scale (all-255) spectrum of length at least 20,
`bassTotal = 5*255 + 15*(255*0.8) = 4335`. -/
theorem bassTotal_full {n : ℕ} (hn : 20 ≤ n) :
    bassTotal (fun _ => 255) n = 4335 := by
  unfold bassTotal
  rw [← Finset.sum_subset (Finset.range_subset.mpr hn)]
  · simp only [Finset.sum_range_succ, Finset.sum_range_zero]
    norm_num [bassContrib]
  · intro i _ hi
    simp only [Finset.mem_range, not_lt] at hi
    unfold bassContrib
    have h5 : ¬ i < 5 := by omega
    have h20 : ¬ i < 20 := by omega
    simp [h5, h20]

/-- On a full-scale spectrum of length at least 20, `bassLevel` evaluates to
`(0.85)^2 * 2 = 1.445 = 289/200`: the kick band's 0.8 weighting keeps the
weighted average at `216.75`, well below 255. -/
theorem bassLevel_full {n : ℕ} (hn : 20 ≤ n) :
    bassLevel (fun _ => 255) n = 289 / 200 := by
  unfold bassLevel bassAvg
  rw [bassTotal_full hn]
  norm_num

/-! ### Color Synthesizer (render, color oscillation logic)

`hueWobble = Math.sin(time * 0.5) * 54` and the per-frame hues are built with
the JavaScript `%` operator, which truncates the quotient toward zero and so
returns a value with the sign of its left operand. -/

/-- Truncation toward zero of a real number (the rounding JavaScript `%`
applies to the quotient). -/
noncomputable def rtrunc (x : ℝ) : ℤ := if 0 ≤ x then ⌊x⌋ else -⌊-x⌋

/-- The JavaScript remainder operator `a % b`. -/
noncomputable def jsMod (a b : ℝ) : ℝ := a - b * (rtrunc (a / b) : ℝ)

/-- `hueWobble = Math.sin(time * 0.5) * 54`. -/
noncomputable def hueWobble (t : ℝ) : ℝ := Real.sin (t * 0.5) * 54

/-- The classic modes' base hue `(globalHueShift + hueWobble) % 360`. -/
noncomputable def dynamicHue (shift t : ℝ) : ℝ := jsMod (shift + hueWobble t) 360

/-- The Neural mode's base hue `(220 + globalHueShift + hueWobble) % 360`. -/
noncomputable def neuralBaseHue (shift t : ℝ) : ℝ := jsMod (220 + shift + hueWobble t) 360

/-- A Watercolor blob's hue `(blob.colorH + globalHueShift + hueWobble) % 360`
(blobs are created with `colorH = 200 + Math.random()*60`). -/
noncomputable def watercolorBlobHue (colorH shift t : ℝ) : ℝ :=
  jsMod (colorH + shift + hueWobble t) 360

/-- The WaterCircle pool hue
`(200 + globalHueShift + hueWobble - bassLevel * 30) % 360`. -/
noncomputable def poolHue (shift t bass : ℝ) : ℝ :=
  jsMod (200 + shift + hueWobble t - bass * 30) 360

/-- The WaterCircle ink bar hue for angular slot `i`:
`(180 + (i / bars) * 60 + globalHueShift + hueWobble) % 360` with `bars = 120`. -/
noncomputable def inkBarHue (i : ℕ) (shift t : ℝ) : ℝ :=
  jsMod (180 + (i : ℝ) / 120 * 60 + shift + hueWobble t) 360

/-- Nebula's center cloud hue `(270 + globalHueShift + hueWobble) % 360`. -/
noncomputable def nebulaPurpleHue (shift t : ℝ) : ℝ :=
  jsMod (270 + shift + hueWobble t) 360

/-- Nebula's first orbiting cloud hue `(320 + globalHueShift + hueWobble) % 360`. -/
noncomputable def nebulaPinkHue (shift t : ℝ) : ℝ :=
  jsMod (320 + shift + hueWobble t) 360

/-- Nebula's second orbiting cloud hue `(230 + globalHueShift + hueWobble) % 360`. -/
noncomputable def nebulaBlueHue (shift t : ℝ) : ℝ :=
  jsMod (230 + shift + hueWobble t) 360

theorem jsMod_of_nonneg_lt {a : ℝ} (h0 : 0 ≤ a) (h1 : a < 360) :
    jsMod a 360 = a := by
  unfold jsMod rtrunc
  have hq0 : 0 ≤ a / 360 := by positivity
  have hq1 : a / 360 < 1 := by linarith [(div_lt_one (by norm_num : (0:ℝ) < 360)).mpr h1]
  rw [if_pos hq0, Int.floor_eq_zero_iff.mpr ⟨hq0, hq1⟩]
  simp

theorem jsMod_of_neg_small {a : ℝ} (h0 : -360 < a) (h1 : a < 0) :
    jsMod a 360 = a := by
  unfold jsMod rtrunc
  have hq : ¬ (0 ≤ a / 360) := by
    push_neg
    exact div_neg_of_neg_of_pos h1 (by norm_num)
  have h0' : 0 ≤ -a / 360 := div_nonneg (by linarith) (by norm_num)
  have h1' : -a / 360 < 1 := by
    rw [div_lt_one (by norm_num : (0:ℝ) < 360)]
    linarith
  rw [if_neg hq]
  rw [show -(a / 360) = -a / 360 by ring]
  rw [Int.floor_eq_zero_iff.mpr ⟨h0', h1'⟩]
  simp

theorem jsMod_of_ge_lt {a : ℝ} (h0 : 360 ≤ a) (h1 : a < 720) :
    jsMod a 360 = a - 360 := by
  unfold jsMod rtrunc
  have hq0 : 0 ≤ a / 360 := by positivity
  have hfl : ⌊a / 360⌋ = 1 := by
    rw [Int.floor_eq_iff]
    constructor
    · rw [show ((1:ℤ):ℝ) = 1 by norm_num, le_div_iff₀ (by norm_num : (0:ℝ) < 360)]
      linarith
    · rw [show ((1:ℤ):ℝ) + 1 = 2 by norm_num, div_lt_iff₀ (by norm_num : (0:ℝ) < 360)]
      linarith
  rw [if_pos hq0, hfl]
  push_cast
  ring

theorem jsMod_of_ge2_lt {a : ℝ} (h0 : 720 ≤ a) (h1 : a < 1080) :
    jsMod a 360 = a - 720 := by
  unfold jsMod rtrunc
  have hq0 : 0 ≤ a / 360 := by positivity
  have hfl : ⌊a / 360⌋ = 2 := by
    rw [Int.floor_eq_iff]
    constructor
    · rw [show ((2:ℤ):ℝ) = 2 by norm_num, le_div_iff₀ (by norm_num : (0:ℝ) < 360)]
      linarith
    · rw [show ((2:ℤ):ℝ) + 1 = 3 by norm_num, div_lt_iff₀ (by norm_num : (0:ℝ) < 360)]
      linarith
  rw [if_pos hq0, hfl]
  push_cast
  ring

/-- Any value in `[0, 1080)` is sent into `[0, 360)` by the JavaScript
`% 360`. -/
theorem jsMod360_mem {a : ℝ} (h0 : 0 ≤ a) (h1 : a < 1080) :
    0 ≤ jsMod a 360 ∧ jsMod a 360 < 360 := by
  rcases lt_or_le a 360 with h | h
  · rw [jsMod_of_nonneg_lt h0 h]
    exact ⟨h0, h⟩
  · rcases lt_or_le a 720 with h2 | h2
    · rw [jsMod_of_ge_lt h h2]
      constructor <;> linarith
    · rw [jsMod_of_ge2_lt h2 h1]
      constructor <;> linarith

theorem hueWobble_bounds (t : ℝ) : -54 ≤ hueWobble t ∧ hueWobble t ≤ 54 := by
  unfold hueWobble
  constructor
  · nlinarith [Real.neg_one_le_sin (t * 0.5)]
  · nlinarith [Real.sin_le_one (t * 0.5)]

/-! ### Particle fields

Each `init*` helper consumes a stream `r : ℕ → ℚ` of `Math.random()` draws
(one index per call, in the source's call order within the construction
loop); a real browser supplies draws in `[0,1)`.  `mathPI` is the IEEE-754
double value of `Math.PI`. -/

/-- The IEEE-754 double closest to π, the exact value of `Math.PI`. -/
def mathPI : ℚ := 884279719003555 / 281474976710656

/-- A Network (Neural) node. -/
structure NeuralNode where
  x : ℚ
  y : ℚ
  originalX : ℚ
  originalY : ℚ
  vx : ℚ
  vy : ℚ
  radius : ℚ
deriving DecidableEq

/-- A Watercolor blob. -/
structure WatercolorBlob where
  x : ℚ
  y : ℚ
  radius : ℚ
  colorH : ℚ
  vx : ℚ
  vy : ℚ
  phase : ℚ
deriving DecidableEq

/-- A Nebula star. -/
structure NebulaStar where
  x : ℚ
  y : ℚ
  size : ℚ
  baseAlpha : ℚ
  twinklePhase : ℚ
deriving DecidableEq

/-- A paper shard (triangle with fixed relative vertices). -/
structure PaperShard where
  x : ℚ
  y : ℚ
  vx : ℚ
  vy : ℚ
  size : ℚ
  p1dx : ℚ
  p1dy : ℚ
  p2dx : ℚ
  p2dy : ℚ
  isLight : Bool
  opacity : ℚ
  isHighlight : Bool
deriving DecidableEq

/-- `initNeuralNodes`: 50 nodes; draw order per node is x, y, vx, vy, radius
(x and y are drawn once and reused for originalX/originalY). -/
def initNeuralNodes (r : ℕ → ℚ) (W H : ℚ) : List NeuralNode :=
  (List.range 50).map fun i =>
    { x := r (5 * i) * W
      y := r (5 * i + 1) * H
      originalX := r (5 * i) * W
      originalY := r (5 * i + 1) * H
      vx := (r (5 * i + 2) - 0.5) * 0.5
      vy := (r (5 * i + 3) - 0.5) * 0.5
      radius := r (5 * i + 4) * 2.0 + 1.0 }

/-- `initWatercolorBlobs`: 7 blobs; draw order per blob is x, y, radius,
colorH, vx, vy, phase. -/
def initWatercolorBlobs (r : ℕ → ℚ) (W H : ℚ) : List WatercolorBlob :=
  (List.range 7).map fun i =>
    { x := r (7 * i) * W
      y := r (7 * i + 1) * H
      radius := 180 + r (7 * i + 2) * 200
      colorH := 200 + r (7 * i + 3) * 60
      vx := (r (7 * i + 4) - 0.5) * 0.5
      vy := (r (7 * i + 5) - 0.5) * 0.5
      phase := r (7 * i + 6) * mathPI * 2 }

/-- `initNebulaStars`: 150 stars; draw order per star is x, y, size,
baseAlpha, twinklePhase. -/
def initNebulaStars (r : ℕ → ℚ) (W H : ℚ) : List NebulaStar :=
  (List.range 150).map fun i =>
    { x := r (5 * i) * W
      y := r (5 * i + 1) * H
      size := r (5 * i + 2) * 3.0 + 1.0
      baseAlpha := r (5 * i + 3) * 0.8 + 0.1
      twinklePhase := r (5 * i + 4) * mathPI * 2 }

/-- `initPaperShards`: 150 shards; draw order per shard is size, p1dx, p1dy,
p2dx, p2dy, isLight, x, y, vx, vy, opacity, isHighlight. -/
def initPaperShards (r : ℕ → ℚ) (W H : ℚ) : List PaperShard :=
  (List.range 150).map fun i =>
    { size := r (12 * i) * 300 + 100
      p1dx := (r (12 * i + 1) - 0.5) * (r (12 * i) * 300 + 100)
      p1dy := (r (12 * i + 2) - 0.5) * (r (12 * i) * 300 + 100)
      p2dx := (r (12 * i + 3) - 0.5) * (r (12 * i) * 300 + 100)
      p2dy := (r (12 * i + 4) - 0.5) * (r (12 * i) * 300 + 100)
      isLight := decide (r (12 * i + 5) > 0.5)
      x := r (12 * i + 6) * W
      y := r (12 * i + 7) * H
      vx := (r (12 * i + 8) - 0.5) * 0.2
      vy := (r (12 * i + 9) - 0.5) * 0.2
      opacity := if r (12 * i + 5) > 0.5 then r (12 * i + 10) * 0.1
                 else r (12 * i + 10) * 0.05
      isHighlight := decide (r (12 * i + 11) > 0.95) }

/-- One tick of a shard (Neural / WaterCircle background): move by velocity,
then wrap with a 150 px margin on each edge. -/
def shardStep (W H : ℚ) (s : PaperShard) : PaperShard :=
  let x1 := s.x + s.vx
  let y1 := s.y + s.vy
  let x2 := if x1 < -150 then W + 150 else x1
  let x3 := if x2 > W + 150 then -150 else x2
  let y2 := if y1 < -150 then H + 150 else y1
  let y3 := if y2 > H + 150 then -150 else y2
  { s with x := x3, y := y3 }

/-- One tick of a Network node: move by velocity scaled by
`1 + bassLevel * 0.5`, then wrap each coordinate to the opposite edge. -/
def nodeStep (W H bass : ℚ) (nd : NeuralNode) : NeuralNode :=
  let x1 := nd.x + nd.vx * (1 + bass * 0.5)
  let y1 := nd.y + nd.vy * (1 + bass * 0.5)
  let x2 := if x1 < 0 then W else x1
  let x3 := if x2 > W then 0 else x2
  let y2 := if y1 < 0 then H else y1
  let y3 := if y2 > H then 0 else y2
  { nd with x := x3, y := y3 }

/-- One tick of a Watercolor blob: move by velocity scaled by
`1 + bassLevel * 5`, then invert a velocity component when the corresponding
coordinate has crossed the 100 px-extended bound (the position itself is not
clamped). -/
def blobStep (W H bass : ℚ) (b : WatercolorBlob) : WatercolorBlob :=
  let x1 := b.x + b.vx * (1 + bass * 5)
  let y1 := b.y + b.vy * (1 + bass * 5)
  let vx1 := if x1 < -100 ∨ x1 > W + 100 then -b.vx else b.vx
  let vy1 := if y1 < -100 ∨ y1 > H + 100 then -b.vy else b.vy
  { b with x := x1, y := y1, vx := vx1, vy := vy1 }

/-- The Shard Field wrap margin: `[-150, W+150] × [-150, H+150]`. -/
def inShardBounds (W H : ℚ) (s : PaperShard) : Prop :=
  -150 ≤ s.x ∧ s.x ≤ W + 150 ∧ -150 ≤ s.y ∧ s.y ≤ H + 150

/-- The Network Field wrap bounds: `[0, W] × [0, H]`. -/
def inNodeBounds (W H : ℚ) (nd : NeuralNode) : Prop :=
  0 ≤ nd.x ∧ nd.x ≤ W ∧ 0 ≤ nd.y ∧ nd.y ≤ H

/-- The Watercolor Field's 100 px-extended bounds: `[-100, W+100] × [-100, H+100]`. -/
def inBlobBounds (W H : ℚ) (b : WatercolorBlob) : Prop :=
  -100 ≤ b.x ∧ b.x ≤ W + 100 ∧ -100 ≤ b.y ∧ b.y ≤ H + 100

instance (W H : ℚ) (s : PaperShard) : Decidable (inShardBounds W H s) := by
  unfold inShardBounds
  infer_instance

instance (W H : ℚ) (nd : NeuralNode) : Decidable (inNodeBounds W H nd) := by
  unfold inNodeBounds
  infer_instance

instance (W H : ℚ) (b : WatercolorBlob) : Decidable (inBlobBounds W H b) := by
  unfold inBlobBounds
  infer_instance

/-! ### WaterCircle (RadialInk) mode geometry (render, WATER_CIRCLE branch) -/

/-- `radiusBase = Math.min(WIDTH, HEIGHT) / 4.5`. -/
def radiusBase (W H : ℚ) : ℚ := min W H / 4.5

/-- `maxExtend = HEIGHT * (1/5)`. -/
def maxExtend (H : ℚ) : ℚ := H * (1 / 5)

/-- `poolSize = (radiusBase * 0.5) * (0.8 + bassLevel * 0.6)`. -/
def poolSize (W H bass : ℚ) : ℚ := radiusBase W H * 0.5 * (0.8 + bass * 0.6)

/-- `centerGap = 10`. -/
def centerGap : ℚ := 10

/-- `safeInnerRadius = poolSize + centerGap`. -/
def safeInnerRadius (W H bass : ℚ) : ℚ := poolSize W H bass + centerGap

/-- `startRadius = radiusBase * 0.9 + bassLevel * (radiusBase * 0.2)`. -/
def startRadius (W H bass : ℚ) : ℚ :=
  radiusBase W H * 0.9 + bass * (radiusBase W H * 0.2)

/-- `usefulFreqRange = Math.floor(bufferLength * 0.82)`. -/
def usefulFreqRange (n : ℕ) : ℕ := 82 * n / 100

/-- The spectrum bin assigned to angular slot `i`:
`Math.floor(i * (usefulFreqRange / 120))`. -/
def inkIndex (n i : ℕ) : ℕ := i * usefulFreqRange n / 120

/-- Outward ink bar length for slot `i`:
`Math.max(0, rawVal^2) * maxExtend * (1 + bassLevel)` with
`rawVal = dataArray[index] / 255`. -/
def outwardLen (d : ℕ → ℕ) (n : ℕ) (H bass : ℚ) (i : ℕ) : ℚ :=
  max 0 (((d (inkIndex n i) : ℚ) / 255) ^ 2) * maxExtend H * (1 + bass)

/-- Inward ink bar length for slot `i`:
`min(outwardLen, max(0, startRadius - safeInnerRadius))`. -/
def inwardLen (d : ℕ → ℕ) (n : ℕ) (W H bass : ℚ) (i : ℕ) : ℚ :=
  min (outwardLen d n H bass i) (max 0 (startRadius W H bass - safeInnerRadius W H bass))

/-- One draw operation emitted by the WaterCircle (RadialInk) branch. -/
inductive InkOp where
  | background
  | shardTri
  | noiseOverlay
  | glow (i : ℕ)
  | pool (size : ℚ)
  | outBar (i : ℕ) (len : ℚ)
  | inBar (i : ℕ) (len : ℚ)
deriving DecidableEq

/-- The glow operations (audio-reactive glow on highlight shards): emitted
only when `min 1 (bass*0.8) > 0.05`, per highlight shard whose trigger level
(bass for even indices, mid for odd) scaled by 0.6 exceeds 0.1. -/
def glowOps (bass mid : ℚ) (shards : List PaperShard) : List InkOp :=
  if min 1 (bass * 0.8) > 0.05 then
    (shards.enum.filterMap fun si =>
      if si.2.isHighlight ∧ (if si.1 % 2 = 0 then bass else mid) * 0.6 > 0.1
      then some (InkOp.glow si.1) else none)
  else []

/-- Bar operations for one angular slot: the outward rectangle is emitted
only when its length is positive, likewise the inward one. -/
def barOps (d : ℕ → ℕ) (n : ℕ) (W H bass : ℚ) (i : ℕ) : List InkOp :=
  (if outwardLen d n H bass i > 0 then [InkOp.outBar i (outwardLen d n H bass i)] else []) ++
  (if inwardLen d n W H bass i > 0 then [InkOp.inBar i (inwardLen d n W H bass i)] else [])

/-- The ordered draw operations of one WaterCircle frame: base tone fill,
moving shards, the static noise overlay (when a noise raster exists), the
bass-triggered glow, the central pool, then 120 angular bar slots. -/
def radialInkOps (d : ℕ → ℕ) (n : ℕ) (W H bass mid : ℚ)
    (shards : List PaperShard) (hasNoise : Bool) : List InkOp :=
  InkOp.background ::
    ((shards.map (shardStep W H)).map (fun _ => InkOp.shardTri) ++
      (if hasNoise then [InkOp.noiseOverlay] else []) ++
      glowOps bass mid (shards.map (shardStep W H)) ++
      [InkOp.pool (poolSize W H bass)] ++
      (List.range 120).flatMap (barOps d n W H bass))

/-- Recognizer for ink bar operations (outward or inward). -/
def isInkBar : InkOp → Bool
  | InkOp.outBar _ _ => true
  | InkOp.inBar _ _ => true
  | _ => false

/-- Recognizer for shard-triangle operations. -/
def isShardTri : InkOp → Bool
  | InkOp.shardTri => true
  | _ => false

/-! ### Circular mode (render, CIRCULAR branch) -/

/-- `step = Math.floor(bufferLength / 120)`. -/
def circularStep (n : ℕ) : ℕ := n / 120

/-- `maxBarHeight = Math.min(WIDTH, HEIGHT) / 2`. -/
def maxBarHeight (W H : ℚ) : ℚ := min W H / 2

/-- Radial bar length for bar `i`:
`(dataArray[i*step]/255)^2 * maxBarHeight * 1.5`. -/
def circularBarHeight (d : ℕ → ℕ) (n : ℕ) (W H : ℚ) (i : ℕ) : ℚ :=
  ((d (i * circularStep n) : ℚ) / 255) ^ 2 * maxBarHeight W H * 1.5

/-- The central disc's scale factor `1 + bassLevel * 0.8`. -/
def circBassScale (d : ℕ → ℕ) (n : ℕ) : ℚ := 1 + bassLevel d n * 0.8

/-! ### Wave mode (render, WAVE branch)

The WAVE branch first overwrites the data array with the time-domain samples
(`getByteTimeDomainData`), so the polyline is a function of the time-domain
array alone. -/

/-- Vertical position of one waveform sample: `y = (sample / 128) * HEIGHT / 2`. -/
def waveY (s : ℕ) (H : ℚ) : ℚ := (s : ℚ) / 128 * H / 2

/-- The WAVE polyline: one vertex per sample at stride `WIDTH / bufferLength`,
closed by a final vertex at `(WIDTH, HEIGHT/2)`.  `freq` is the frequency
array fetched at the top of the tick; the branch replaces it with the
time-domain array `t` before building the polyline. -/
def wavePolyline (_freq t : ℕ → ℕ) (n : ℕ) (W H : ℚ) : List (ℚ × ℚ) :=
  (List.range n).map (fun (i : ℕ) => ((i : ℚ) * (W * 1.0 / n), waveY (t i) H)) ++ [(W, H / 2)]

/-! ### Mode switching and lazy field initialization -/

/-- The seven visualizer modes. -/
inductive Mode where
  | CIRCULAR
  | BARS
  | WAVE
  | NEURAL
  | WATERCOLOR
  | NEBULA
  | WATER_CIRCLE
deriving DecidableEq

/-- The persistent particle-field state held across ticks and mode switches. -/
structure FieldState where
  nodes : List NeuralNode
  blobs : List WatercolorBlob
  stars : List NebulaStar
  shards : List PaperShard
  noise : Bool
deriving DecidableEq

/-- The mode-change effect: lazily create the newly active mode's field when
it is still empty (an else-if chain), then additionally create the shard
field for Neural mode when absent (`initPaperShards` also regenerates the
noise raster). -/
def activate (m : Mode) (r : ℕ → ℚ) (W H : ℚ) (st : FieldState) : FieldState :=
  let st1 :=
    if m = Mode.NEURAL ∧ st.nodes = [] then
      { st with nodes := initNeuralNodes r W H }
    else if m = Mode.WATERCOLOR ∧ st.blobs = [] then
      { st with blobs := initWatercolorBlobs r W H }
    else if m = Mode.NEBULA ∧ st.stars = [] then
      { st with stars := initNebulaStars r W H }
    else if m = Mode.WATER_CIRCLE ∧ st.shards = [] then
      { st with shards := initPaperShards r W H, noise := true }
    else st
  if m = Mode.NEURAL ∧ st1.shards = [] then
    { st1 with shards := initPaperShards r W H, noise := true }
  else st1

/-! ### Rotation accumulator (render, before the mode dispatch) -/

/-- One tick of the rotation accumulator:
`rotationRef.current += 0.002 + bassLevel * 0.005`.  The update is executed
before the per-mode dispatch, so it ignores the active mode. -/
def tickRotation (_ : Mode) (rot : ℚ) (d : ℕ → ℕ) (n : ℕ) : ℚ :=
  rot + (0.002 + bassLevel d n * 0.005)

/-! ### Claim C1 -/

/-- C1 counterexample: with user hue shift `0` and elapsed time `t = 3π`
(about 9.42 s), `sin(0.5*t) = -1`, so the classic modes' combined base hue
`(userShift + 54*sin(0.5*t)) % 360` evaluates to `-54`, which is negative
and hence not in `[0, 360)`: the JavaScript `%` keeps the sign of its left
operand. -/
theorem combinedHue_escapes_range :
    dynamicHue 0 (3 * Real.pi) = -54 ∧ dynamicHue 0 (3 * Real.pi) < 0 := by
  have hsin : Real.sin (3 * Real.pi * 0.5) = -1 := by
    rw [show 3 * Real.pi * 0.5 = Real.pi / 2 + Real.pi by ring]
    rw [Real.sin_add_pi, Real.sin_pi_div_two]
  have hw : hueWobble (3 * Real.pi) = -54 := by
    unfold hueWobble
    rw [hsin]
    norm_num
  have h : dynamicHue 0 (3 * Real.pi) = -54 := by
    unfold dynamicHue
    rw [hw]
    rw [show (0 : ℝ) + -54 = -54 by ring]
    rw [jsMod_of_neg_small (by norm_num) (by norm_num)]
  exact ⟨h, by rw [h]; norm_num⟩

/-- C1 (amended): for every user hue shift in `[0, 360)` and every elapsed
time, the classic modes' combined base hue lies in `[-54, 360)`, and it is
non-negative exactly when the pre-modulo sum `userShift + 54*sin(0.5*t)` is;
every per-mode offset hue — Neural's `220 + shift + wobble`, a Watercolor
blob's `colorH + shift + wobble` with `colorH ∈ [200, 260)`, the WaterCircle
pool's `200 + shift + wobble - bass*30` with `bass ∈ [0, 2]`, the ink bar's
`180 + (i/120)*60 + shift + wobble` for each of the 120 slots, and Nebula's
`270/320/230 + shift + wobble` — is re-normalized by `% 360` into `[0, 360)`. -/
theorem combinedHue_range (shift t colorH bass : ℝ) (i : ℕ)
    (h0 : 0 ≤ shift) (h1 : shift < 360)
    (hc0 : 200 ≤ colorH) (hc1 : colorH < 260)
    (hb0 : 0 ≤ bass) (hb1 : bass ≤ 2) (hi : i < 120) :
    (-54 ≤ dynamicHue shift t ∧ dynamicHue shift t < 360) ∧
    (0 ≤ shift + hueWobble t ↔ 0 ≤ dynamicHue shift t) ∧
    (0 ≤ neuralBaseHue shift t ∧ neuralBaseHue shift t < 360) ∧
    (0 ≤ watercolorBlobHue colorH shift t ∧ watercolorBlobHue colorH shift t < 360) ∧
    (0 ≤ poolHue shift t bass ∧ poolHue shift t bass < 360) ∧
    (0 ≤ inkBarHue i shift t ∧ inkBarHue i shift t < 360) ∧
    (0 ≤ nebulaPurpleHue shift t ∧ nebulaPurpleHue shift t < 360) ∧
    (0 ≤ nebulaPinkHue shift t ∧ nebulaPinkHue shift t < 360) ∧
    (0 ≤ nebulaBlueHue shift t ∧ nebulaBlueHue shift t < 360) := by
  obtain ⟨hwl, hwu⟩ := hueWobble_bounds t
  have hbase : dynamicHue shift t = jsMod (shift + hueWobble t) 360 := rfl
  have hiR : (i : ℝ) ≤ 119 := by exact_mod_cast Nat.lt_succ_iff.mp hi
  have hiR0 : (0 : ℝ) ≤ (i : ℝ) := Nat.cast_nonneg i
  refine ⟨?_, ?_, ?_, ?_, ?_, ?_, ?_, ?_, ?_⟩
  · rcases lt_or_le (shift + hueWobble t) 0 with hneg | hpos
    · rw [hbase, jsMod_of_neg_small (by linarith) hneg]
      constructor <;> linarith
    · obtain ⟨hl, hu⟩ := jsMod360_mem hpos (by linarith)
      rw [hbase]
      constructor <;> linarith
  · constructor
    · intro hpos
      exact (jsMod360_mem hpos (by linarith)).1.trans_eq hbase.symm
    · intro hh
      by_contra hneg
      push_neg at hneg
      rw [hbase, jsMod_of_neg_small (by linarith) hneg] at hh
      linarith
  · exact jsMod360_mem (by linarith) (by linarith)
  · exact jsMod360_mem (by linarith) (by linarith)
  · exact jsMod360_mem (by linarith) (by linarith)
  · unfold inkBarHue
    have hnn : 0 ≤ (i : ℝ) / 120 * 60 := by positivity
    have hub : (i : ℝ) / 120 * 60 ≤ 59.5 := by linarith
    exact jsMod360_mem (by linarith) (by linarith)
  · exact jsMod360_mem (by linarith) (by linarith)
  · exact jsMod360_mem (by linarith) (by linarith)
  · exact jsMod360_mem (by linarith) (by linarith)

/-- C1 witness: the amended bounds instantiated at user shift `0`, elapsed
time `0`, blob hue `200`, bass level `0`, and ink bar slot `0`. -/
theorem combinedHue_range_witness :
    0 ≤ (0 : ℝ) ∧ (0 : ℝ) < 360 ∧ 200 ≤ (200 : ℝ) ∧ (200 : ℝ) < 260 ∧
    0 ≤ (0 : ℝ) ∧ (0 : ℝ) ≤ 2 ∧ 0 < 120 ∧
    ((-54 ≤ dynamicHue 0 0 ∧ dynamicHue 0 0 < 360) ∧
      (0 ≤ (0 : ℝ) + hueWobble 0 ↔ 0 ≤ dynamicHue 0 0) ∧
      (0 ≤ neuralBaseHue 0 0 ∧ neuralBaseHue 0 0 < 360) ∧
      (0 ≤ watercolorBlobHue 200 0 0 ∧ watercolorBlobHue 200 0 0 < 360) ∧
      (0 ≤ poolHue 0 0 0 ∧ poolHue 0 0 0 < 360) ∧
      (0 ≤ inkBarHue 0 0 0 ∧ inkBarHue 0 0 0 < 360) ∧
      (0 ≤ nebulaPurpleHue 0 0 ∧ nebulaPurpleHue 0 0 < 360) ∧
      (0 ≤ nebulaPinkHue 0 0 ∧ nebulaPinkHue 0 0 < 360) ∧
      (0 ≤ nebulaBlueHue 0 0 ∧ nebulaBlueHue 0 0 < 360)) :=
  ⟨by norm_num, by norm_num, by norm_num, by norm_num, by norm_num, by norm_num,
    by norm_num,
    combinedHue_range 0 0 200 0 0 (by norm_num) (by norm_num) (by norm_num)
      (by norm_num) (by norm_num) (by norm_num) (by norm_num)⟩

/-! ### Claim C2 -/

/-- C2: for a frequency array of length exactly 100 the high band is empty
(`highTotal = 0`), yet the code computes `highAvg = highTotal / (100 - 100)`,
a `0 / 0` division whose JavaScript result is NaN — an undefined level,
modelled as `none` — instead of the zero the spec promises for an empty
band. -/
theorem highLevel_undefined_at_100 (d : ℕ → ℕ) :
    highTotal d 100 = 0 ∧ highLevel d 100 = none := by
  constructor
  · unfold highTotal
    refine Finset.sum_eq_zero fun i hi => ?_
    unfold highContrib
    rw [if_pos (Finset.mem_range.mp hi)]
  · unfold highLevel highAvg jsdiv
    norm_num

/-! ### Claim C3 -/

/-- C3: increasing any raw magnitude byte in the bass band (indices `[0,20)`)
while holding all other bytes fixed never decreases `bassLevel`: both bass
weights (1 and 0.8) are non-negative, the average is taken over the fixed
constant 20, and squaring is monotone on non-negative values. -/
theorem bassLevel_mono (d1 d2 : ℕ → ℕ) (n j : ℕ) (hj : j < 20)
    (hagree : ∀ i, i ≠ j → d1 i = d2 i) (hle : d2 j ≤ d1 j) :
    bassLevel d2 n ≤ bassLevel d1 n := by
  have htot : bassTotal d2 n ≤ bassTotal d1 n := by
    unfold bassTotal
    refine Finset.sum_le_sum fun i _ => ?_
    rcases eq_or_ne i j with rfl | hne
    · exact bassContrib_mono i hle
    · rw [hagree i hne]
  have havg2 : 0 ≤ bassAvg d2 n := by
    unfold bassAvg
    have := bassTotal_nonneg d2 n
    positivity
  have havg : bassAvg d2 n ≤ bassAvg d1 n := by
    unfold bassAvg
    linarith
  unfold bassLevel
  have h2 : (0:ℚ) ≤ bassAvg d2 n / 255 := by positivity
  have h1 : bassAvg d2 n / 255 ≤ bassAvg d1 n / 255 := by linarith
  nlinarith

/-- C3 witness: raising bin 0 from 0 to 10 (all other bins 0, length 3)
does not decrease `bassLevel`. -/
theorem bassLevel_mono_witness :
    bassLevel (fun _ => 0) 3 ≤ bassLevel (fun i => if i = 0 then 10 else 0) 3 :=
  bassLevel_mono (fun i => if i = 0 then 10 else 0) (fun _ => 0) 3 0
    (by norm_num) (fun i hi => by simp [hi]) (by norm_num)

/-! ### Claim C4 -/

/-- C4 counterexample: on the full-scale spectrum (length 1024, all bytes
255) the Circular disc's scale factor is `1 + 1.445*0.8 = 2.156`, not the
claimed `1 + 0.8`: `bassLevel` does not saturate at 2 on full-scale input,
because kick-band bins are weighted 0.8 (`bassAvg = 216.75`, so
`bassLevel = (0.85)^2 * 2 = 1.445`). -/
theorem circBassScale_full_ne :
    circBassScale (fun _ => 255) 1024 = 539 / 250 ∧
    circBassScale (fun _ => 255) 1024 ≠ 1 + 0.8 := by
  have h : circBassScale (fun _ => 255) 1024 = 539 / 250 := by
    unfold circBassScale
    rw [bassLevel_full (by norm_num)]
    norm_num
  exact ⟨h, by rw [h]; norm_num⟩

/-- C4 (amended): on the full-scale spectrum of length 1024 in Circular mode
every radial bar has length exactly `maxBarHeight * 1.5`, and the central
disc's scale factor `1 + bassLevel*0.8` equals `2.156 = 539/250` (with
`bassLevel = 1.445`, its maximum, rather than the claimed saturation
value 2). -/
theorem circularFull_bars_and_scale (W H : ℚ) (i : ℕ) :
    circularBarHeight (fun _ => 255) 1024 W H i = maxBarHeight W H * 1.5 ∧
    circBassScale (fun _ => 255) 1024 = 539 / 250 := by
  constructor
  · unfold circularBarHeight
    norm_num
  · unfold circBassScale
    rw [bassLevel_full (by norm_num)]
    norm_num

/-! ### Claim C5 -/

theorem shardStep_bounds (W H : ℚ) (hW : 0 ≤ W) (hH : 0 ≤ H) (s : PaperShard) :
    inShardBounds W H (shardStep W H s) := by
  unfold shardStep inShardBounds
  simp only
  split_ifs <;> refine ⟨by linarith, by linarith, by linarith, by linarith⟩

theorem nodeStep_bounds (W H bass : ℚ) (hW : 0 ≤ W) (hH : 0 ≤ H) (nd : NeuralNode) :
    inNodeBounds W H (nodeStep W H bass nd) := by
  unfold nodeStep inNodeBounds
  simp only
  split_ifs <;> refine ⟨by linarith, by linarith, by linarith, by linarith⟩

/-- The x-coordinate after one blob tick (the position is updated
unconditionally, before the bounce test). -/
theorem blobStep_x (W H bass : ℚ) (b : WatercolorBlob) :
    (blobStep W H bass b).x = b.x + b.vx * (1 + bass * 5) := rfl

/-- The x-velocity is unchanged by a blob tick whenever the new x-coordinate
stays inside the extended bounds. -/
theorem blobStep_vx (W H bass : ℚ) (b : WatercolorBlob)
    (h : ¬(b.x + b.vx * (1 + bass * 5) < -100 ∨ b.x + b.vx * (1 + bass * 5) > W + 100)) :
    (blobStep W H bass b).vx = b.vx := by
  unfold blobStep
  simp only
  rw [if_neg h]

/-- C5 (amended): from a freshly initialized field, Shard Field particles
stay within `[-150, W+150] × [-150, H+150]` after any number of ticks, and
Network nodes stay within `[0, W] × [0, H]` after any sequence of ticks with
arbitrary per-tick bass levels; in fact one step of either field lands in
its wrap bounds from any state.  (The Watercolor Field has no such
invariant: its bounce only inverts velocity without clamping the position —
see the counterexample.) -/
theorem particleFields_wrap_invariant (W H : ℚ) (r : ℕ → ℚ)
    (hW : 0 ≤ W) (hH : 0 ≤ H) (hr : ∀ i, 0 ≤ r i ∧ r i < 1) :
    (∀ s ∈ initPaperShards r W H, inShardBounds W H s) ∧
    (∀ s : PaperShard, inShardBounds W H s →
      ∀ k : ℕ, inShardBounds W H ((shardStep W H)^[k] s)) ∧
    (∀ nd ∈ initNeuralNodes r W H, inNodeBounds W H nd) ∧
    (∀ nd : NeuralNode, inNodeBounds W H nd →
      ∀ bs : List ℚ, inNodeBounds W H
        (bs.foldl (fun a bass => nodeStep W H bass a) nd)) := by
  have hmul : ∀ (i : ℕ) (L : ℚ), 0 ≤ L → 0 ≤ r i * L ∧ r i * L ≤ L := by
    intro i L hL
    obtain ⟨h0, h1⟩ := hr i
    exact ⟨mul_nonneg h0 hL, mul_le_of_le_one_left hL (le_of_lt h1)⟩
  refine ⟨?_, ?_, ?_, ?_⟩
  · intro s hs
    obtain ⟨i, _, rfl⟩ := List.mem_map.mp hs
    obtain ⟨hx0, hx1⟩ := hmul (12 * i + 6) W hW
    obtain ⟨hy0, hy1⟩ := hmul (12 * i + 7) H hH
    exact ⟨by simpa using by linarith, by simpa using by linarith,
      by simpa using by linarith, by simpa using by linarith⟩
  · intro s hs k
    cases k with
    | zero => exact hs
    | succ m =>
      rw [Function.iterate_succ_apply']
      exact shardStep_bounds W H hW hH _
  · intro nd hnd
    obtain ⟨i, _, rfl⟩ := List.mem_map.mp hnd
    obtain ⟨hx0, hx1⟩ := hmul (5 * i) W hW
    obtain ⟨hy0, hy1⟩ := hmul (5 * i + 1) H hH
    exact ⟨by simpa using hx0, by simpa using hx1, by simpa using hy0, by simpa using hy1⟩
  · intro nd hnd bs
    induction bs generalizing nd with
    | nil => exact hnd
    | cons b bs ih =>
      exact ih (nodeStep W H b nd) (nodeStep_bounds W H b hW hH nd)

/-- C5 witness: on a 1×1 surface with the all-zero random stream, a shard at
the origin is still inside the wrap margin after two ticks. -/
theorem particleFields_wrap_invariant_witness :
    inShardBounds 1 1 ((shardStep 1 1)^[2] ⟨0, 0, 0, 0, 0, 0, 0, 0, 0, false, 0, false⟩) :=
  (particleFields_wrap_invariant 1 1 (fun _ => 0) (by norm_num) (by norm_num)
      (fun _ => ⟨le_refl 0, by norm_num⟩)).2.1
    ⟨0, 0, 0, 0, 0, 0, 0, 0, 0, false, 0, false⟩
    ⟨by norm_num, by norm_num, by norm_num, by norm_num⟩ 2

/-- C5 counterexample: a freshly initialized Watercolor blob (blob 0 of
`initWatercolorBlobs` on a 10×10 surface, spawned at `x = 9.9` with
`vx = 0.2`) leaves the 100 px-extended bound: after 61 ticks at the bass
level of the full-scale spectrum (`bassLevel = 1.445`, speed multiplier
`8.225`) its x-coordinate is `110.245 > W + 100`.  The bounce only inverts
the velocity and never clamps the position back inside. -/
theorem watercolorBlob_escapes_bounds :
    (⟨99/10, 0, 180, 200, 1/5, -1/4, 0⟩ : WatercolorBlob) ∈
      initWatercolorBlobs (fun i => if i = 0 then 99/100 else if i = 4 then 9/10 else 0) 10 10 ∧
    ((blobStep 10 10 (bassLevel (fun _ => 255) 1024))^[61]
        (⟨99/10, 0, 180, 200, 1/5, -1/4, 0⟩ : WatercolorBlob)).x > 10 + 100 := by
  constructor
  · refine List.mem_map.mpr ⟨0, List.mem_range.mpr (by norm_num), ?_⟩
    norm_num [WatercolorBlob.mk.injEq]
  · rw [bassLevel_full (by norm_num)]
    have key : ∀ k : ℕ, k ≤ 60 →
        ((blobStep 10 10 (289/200))^[k]
            (⟨99/10, 0, 180, 200, 1/5, -1/4, 0⟩ : WatercolorBlob)).x
          = 99/10 + 329/200 * k ∧
        ((blobStep 10 10 (289/200))^[k]
            (⟨99/10, 0, 180, 200, 1/5, -1/4, 0⟩ : WatercolorBlob)).vx = 1/5 := by
      intro k
      induction k with
      | zero => exact fun _ => ⟨by norm_num, rfl⟩
      | succ m ih =>
        intro hm
        obtain ⟨hx, hv⟩ := ih (by omega)
        have hm59 : (m : ℚ) ≤ 59 := by exact_mod_cast (by omega : m ≤ 59)
        have hxnew : ((blobStep 10 10 (289/200))^[m]
              (⟨99/10, 0, 180, 200, 1/5, -1/4, 0⟩ : WatercolorBlob)).x +
            ((blobStep 10 10 (289/200))^[m]
              (⟨99/10, 0, 180, 200, 1/5, -1/4, 0⟩ : WatercolorBlob)).vx * (1 + 289/200 * 5)
            = 99/10 + 329/200 * (m + 1) := by
          rw [hx, hv]
          ring
        have hin : ¬(((blobStep 10 10 (289/200))^[m]
              (⟨99/10, 0, 180, 200, 1/5, -1/4, 0⟩ : WatercolorBlob)).x +
            ((blobStep 10 10 (289/200))^[m]
              (⟨99/10, 0, 180, 200, 1/5, -1/4, 0⟩ : WatercolorBlob)).vx * (1 + 289/200 * 5)
            < -100 ∨
            ((blobStep 10 10 (289/200))^[m]
              (⟨99/10, 0, 180, 200, 1/5, -1/4, 0⟩ : WatercolorBlob)).x +
            ((blobStep 10 10 (289/200))^[m]
              (⟨99/10, 0, 180, 200, 1/5, -1/4, 0⟩ : WatercolorBlob)).vx * (1 + 289/200 * 5)
            > 10 + 100) := by
          rw [hxnew]
          push_neg
          constructor <;> linarith
        constructor
        · rw [Function.iterate_succ_apply', blobStep_x, hxnew]
          push_cast
          ring
        · rw [Function.iterate_succ_apply', blobStep_vx _ _ _ _ hin, hv]
    obtain ⟨hx, hv⟩ := key 60 (le_refl 60)
    rw [show (61 : ℕ) = 60 + 1 from rfl, Function.iterate_succ_apply', blobStep_x, hx, hv]
    norm_num

/-! ### Claim C6 -/

theorem outwardLen_silence (n : ℕ) (H bass : ℚ) (i : ℕ) :
    outwardLen (fun _ => 0) n H bass i = 0 := by
  unfold outwardLen
  norm_num

theorem inwardLen_silence (n : ℕ) (W H bass : ℚ) (i : ℕ) :
    inwardLen (fun _ => 0) n W H bass i = 0 := by
  unfold inwardLen
  rw [outwardLen_silence]
  exact min_eq_left (le_max_left 0 _)

/-- C6: on the all-zero spectrum in RadialInk (WaterCircle) mode no outward
or inward ink bar operation is emitted (every bar length is zero), while the
frame still draws the base tone, each background shard triangle, the static
noise overlay, and the central pool. -/
theorem radialInk_silence (n : ℕ) (W H : ℚ) (shards : List PaperShard) :
    (radialInkOps (fun _ => 0) n W H (bassLevel (fun _ => 0) n)
        (midLevel (fun _ => 0) n) shards true).countP isInkBar = 0 ∧
    InkOp.pool (poolSize W H (bassLevel (fun _ => 0) n)) ∈
      radialInkOps (fun _ => 0) n W H (bassLevel (fun _ => 0) n)
        (midLevel (fun _ => 0) n) shards true ∧
    InkOp.background ∈
      radialInkOps (fun _ => 0) n W H (bassLevel (fun _ => 0) n)
        (midLevel (fun _ => 0) n) shards true ∧
    InkOp.noiseOverlay ∈
      radialInkOps (fun _ => 0) n W H (bassLevel (fun _ => 0) n)
        (midLevel (fun _ => 0) n) shards true ∧
    (radialInkOps (fun _ => 0) n W H (bassLevel (fun _ => 0) n)
        (midLevel (fun _ => 0) n) shards true).countP isShardTri = shards.length := by
  rw [bassLevel_zero, midLevel_zero]
  have hglow : glowOps 0 0 (shards.map (shardStep W H)) = [] := by
    unfold glowOps
    rw [if_neg]
    norm_num
  have hbar : ∀ i, barOps (fun _ => 0) n W H 0 i = [] := by
    intro i
    unfold barOps
    rw [outwardLen_silence, inwardLen_silence]
    norm_num
  have hflat : (List.range 120).flatMap (barOps (fun _ => 0) n W H 0) = [] := by
    refine List.eq_nil_iff_forall_not_mem.mpr fun x hx => ?_
    obtain ⟨i, _, hmem⟩ := List.mem_flatMap.mp hx
    rw [hbar i] at hmem
    exact absurd hmem (List.not_mem_nil x)
  refine ⟨?_, ?_, ?_, ?_, ?_⟩
  · simp [radialInkOps, hglow, hflat, List.countP_append, List.countP_map, isInkBar,
      List.countP_cons]
  · simp [radialInkOps]
  · simp [radialInkOps]
  · simp [radialInkOps]
  · simp [radialInkOps, hglow, hflat, List.countP_cons, List.countP_append,
      List.countP_map, isShardTri, Function.comp_def]
    have hall : ∀ a ∈ List.replicate shards.length InkOp.shardTri, isShardTri a = true := by
      intro a ha
      rw [List.eq_of_mem_replicate ha]
      rfl
    rw [List.countP_eq_length.mpr hall, List.length_replicate]

/-! ### Claim C7 -/

/-- C7 counterexample: on a 9×9 surface with the all-zero spectrum,
`startRadius = 1.8` is already inside `poolSize + gap = 10.8`, so the code's
clamped inward length is `min(outwardLen, max(0, startRadius - (poolSize+gap)))
= 0`, while the claim's formula `min(outwardLen, startRadius - (poolSize+gap))`
evaluates to `-9`, and the inward bar's inner end radius `startRadius - 0 = 1.8`
is below `poolSize + gap`. -/
theorem inwardLen_formula_fails_small_surface :
    inwardLen (fun _ => 0) 1024 9 9 (bassLevel (fun _ => 0) 1024) 0 = 0 ∧
    min (outwardLen (fun _ => 0) 1024 9 (bassLevel (fun _ => 0) 1024) 0)
        (startRadius 9 9 (bassLevel (fun _ => 0) 1024) -
          (poolSize 9 9 (bassLevel (fun _ => 0) 1024) + centerGap)) = -9 ∧
    startRadius 9 9 (bassLevel (fun _ => 0) 1024) -
        inwardLen (fun _ => 0) 1024 9 9 (bassLevel (fun _ => 0) 1024) 0 <
      poolSize 9 9 (bassLevel (fun _ => 0) 1024) + centerGap := by
  rw [bassLevel_zero]
  refine ⟨inwardLen_silence _ _ _ _ _, ?_, ?_⟩
  · rw [outwardLen_silence]
    unfold startRadius poolSize radiusBase centerGap
    norm_num
  · rw [inwardLen_silence]
    unfold startRadius poolSize radiusBase centerGap
    norm_num

/-- C7 (amended): in RadialInk mode, for every spectrum, surface, bass level
and angular slot, the inward bar length is `min(outwardLen, max(0,
startRadius - (poolSize+gap)))`; it never exceeds the outward length, and
whenever an inward bar is actually emitted (`inwardLen > 0`) its inner end
radius `startRadius - inwardLen` is at least `poolSize + gap`, so a drawn
inward bar never overlaps the central pool. -/
theorem inwardLen_clamped (d : ℕ → ℕ) (n : ℕ) (W H bass : ℚ) (i : ℕ) :
    inwardLen d n W H bass i ≤ outwardLen d n H bass i ∧
    (0 < inwardLen d n W H bass i →
      poolSize W H bass + centerGap ≤
        startRadius W H bass - inwardLen d n W H bass i) := by
  constructor
  · exact min_le_left _ _
  · intro hpos
    have hle : inwardLen d n W H bass i ≤
        max 0 (startRadius W H bass - safeInnerRadius W H bass) :=
      min_le_right _ _
    rcases le_or_lt (startRadius W H bass - safeInnerRadius W H bass) 0 with h | h
    · rw [max_eq_left h] at hle
      linarith
    · rw [max_eq_right (le_of_lt h)] at hle
      unfold safeInnerRadius at hle
      linarith

/-- C7 witness: on a 900×900 surface at bass level 0 with the full-scale
spectrum, the inward bar is emitted (`inwardLen = 90 > 0`) and its inner end
sits exactly at the pool boundary `poolSize + gap = 90`. -/
theorem inwardLen_clamped_witness :
    0 < inwardLen (fun _ => 255) 20 900 900 0 0 ∧
    poolSize 900 900 0 + centerGap ≤
      startRadius 900 900 0 - inwardLen (fun _ => 255) 20 900 900 0 0 :=
  ⟨by norm_num [inwardLen, outwardLen, maxExtend, startRadius, safeInnerRadius,
      poolSize, radiusBase, centerGap],
    (inwardLen_clamped (fun _ => 255) 20 900 900 0 0).2
      (by norm_num [inwardLen, outwardLen, maxExtend, startRadius, safeInnerRadius,
        poolSize, radiusBase, centerGap])⟩

/-! ### Claim C8 -/

/-- C8 counterexample: a sample byte of 0 on a height-100 surface is drawn at
`y = (0/128) * 100/2 = 0`, not at the claim's `(0/128 - 1) * 100/2 = -50`:
the code's `y = v * HEIGHT/2` has no `- 1` recentering term. -/
theorem waveY_formula_differs :
    waveY 0 100 = 0 ∧ waveY 0 100 ≠ ((0 : ℚ) / 128 - 1) * (100 / 2) := by
  constructor
  · unfold waveY
    norm_num
  · unfold waveY
    norm_num

/-- C8 (amended): the Wave branch draws the time-domain samples as a single
polyline whose vertices do not depend on the frequency array, and each
sample byte `s` is mapped to `y = (s/128) * height/2` — which equals the
claim's `(s/128 - 1) * height/2` shifted by `+height/2`, i.e. the claim's
formula gives the offset from the vertical center while the code's `y` is in
absolute surface coordinates. -/
theorem wavePolyline_mapping (f g t : ℕ → ℕ) (n : ℕ) (W H : ℚ) :
    wavePolyline f t n W H = wavePolyline g t n W H ∧
    (wavePolyline f t n W H).map Prod.snd =
      (List.range n).map (fun (i : ℕ) => ((t i : ℚ) / 128 - 1) * (H / 2) + H / 2)
        ++ [H / 2] := by
  refine ⟨rfl, ?_⟩
  unfold wavePolyline waveY
  rw [List.map_append, List.map_map]
  congr 1
  refine List.map_congr_left fun i _ => ?_
  simp only [Function.comp_apply]
  ring

/-! ### Claim C9 -/

theorem initNeuralNodes_ne_nil (r : ℕ → ℚ) (W H : ℚ) :
    initNeuralNodes r W H ≠ [] := by
  simp [initNeuralNodes]

theorem initWatercolorBlobs_ne_nil (r : ℕ → ℚ) (W H : ℚ) :
    initWatercolorBlobs r W H ≠ [] := by
  simp [initWatercolorBlobs]

theorem initNebulaStars_ne_nil (r : ℕ → ℚ) (W H : ℚ) :
    initNebulaStars r W H ≠ [] := by
  simp [initNebulaStars]

theorem initPaperShards_ne_nil (r : ℕ → ℚ) (W H : ℚ) :
    initPaperShards r W H ≠ [] := by
  simp [initPaperShards]

/-- C9: activating the same mode twice in succession (without a resize in
between) is idempotent — the second activation is the identity on the field
state, so no field is re-created or re-randomized; switching Watercolor →
Nebula → Watercolor leaves the Watercolor Field's blobs untouched; and when
the round trip starts from an uninitialized blob field, the field holds
exactly 7 blobs whose positions lie within the surface bounds. -/
theorem activate_idempotent (m : Mode) (st : FieldState) (r1 r2 r3 : ℕ → ℚ)
    (W H : ℚ) :
    activate m r2 W H (activate m r1 W H st) = activate m r1 W H st ∧
    (activate Mode.WATERCOLOR r3 W H
        (activate Mode.NEBULA r2 W H (activate Mode.WATERCOLOR r1 W H st))).blobs =
      (activate Mode.WATERCOLOR r1 W H st).blobs ∧
    (st.blobs = [] → (∀ i, 0 ≤ r1 i ∧ r1 i < 1) → 0 ≤ W → 0 ≤ H →
      (activate Mode.WATERCOLOR r1 W H st).blobs.length = 7 ∧
      ∀ b ∈ (activate Mode.WATERCOLOR r1 W H st).blobs,
        0 ≤ b.x ∧ b.x ≤ W ∧ 0 ≤ b.y ∧ b.y ≤ H) := by
  refine ⟨?_, ?_, ?_⟩
  · cases m with
    | NEURAL =>
      by_cases hn : st.nodes = [] <;> by_cases hs : st.shards = [] <;>
        simp [activate, hn, hs, initNeuralNodes_ne_nil, initPaperShards_ne_nil]
    | WATERCOLOR =>
      by_cases hb : st.blobs = [] <;>
        simp [activate, hb, initWatercolorBlobs_ne_nil]
    | NEBULA =>
      by_cases hst : st.stars = [] <;>
        simp [activate, hst, initNebulaStars_ne_nil]
    | WATER_CIRCLE =>
      by_cases hs : st.shards = [] <;>
        simp [activate, hs, initPaperShards_ne_nil]
    | CIRCULAR => simp [activate]
    | BARS => simp [activate]
    | WAVE => simp [activate]
  · by_cases hb : st.blobs = [] <;>
      by_cases hst : st.stars = [] <;>
        simp [activate, hb, hst, initWatercolorBlobs_ne_nil]
  · intro hb hr hW hH
    constructor
    · simp [activate, hb, initWatercolorBlobs]
    · intro b hbmem
      rw [show (activate Mode.WATERCOLOR r1 W H st).blobs = initWatercolorBlobs r1 W H
          by simp [activate, hb]] at hbmem
      obtain ⟨i, _, rfl⟩ := List.mem_map.mp hbmem
      obtain ⟨hx0, hx1⟩ := hr (7 * i)
      obtain ⟨hy0, hy1⟩ := hr (7 * i + 1)
      have hx : 0 ≤ r1 (7 * i) * W ∧ r1 (7 * i) * W ≤ W :=
        ⟨mul_nonneg hx0 hW, mul_le_of_le_one_left hW (le_of_lt hx1)⟩
      have hy : 0 ≤ r1 (7 * i + 1) * H ∧ r1 (7 * i + 1) * H ≤ H :=
        ⟨mul_nonneg hy0 hH, mul_le_of_le_one_left hH (le_of_lt hy1)⟩
      exact ⟨by simpa using hx.1, by simpa using hx.2, by simpa using hy.1,
        by simpa using hy.2⟩

/-- C9 witness: starting from the empty field state on a 1×1 surface with
the all-zero random stream, a Watercolor activation yields exactly 7 blobs. -/
theorem activate_idempotent_witness :
    (activate Mode.WATERCOLOR (fun _ => 0) 1 1
        ⟨[], [], [], [], false⟩).blobs.length = 7 :=
  ((activate_idempotent Mode.WATERCOLOR ⟨[], [], [], [], false⟩
      (fun _ => 0) (fun _ => 0) (fun _ => 0) 1 1).2.2 rfl
    (fun _ => ⟨le_refl 0, by norm_num⟩) (by norm_num) (by norm_num)).1

/-! ### Claim C10 -/

/-- C10: the rotation accumulator is advanced by `0.002 + bassLevel*0.005`
on every tick irrespective of the active mode (the update precedes the mode
dispatch), and since `bassLevel ≥ 0` the accumulator strictly increases on
every tick. -/
theorem tickRotation_mode_independent_strict_mono (m m' : Mode) (rot : ℚ)
    (d : ℕ → ℕ) (n : ℕ) :
    tickRotation m rot d n = tickRotation m' rot d n ∧
    rot < tickRotation m rot d n := by
  refine ⟨rfl, ?_⟩
  unfold tickRotation
  have := bassLevel_nonneg d n
  nlinarith

end NeonFlow
